import Mathlib

/-!
Verification of the signature-help feature of `jupyterlab-lsp`
(`src/packages/jupyterlab-lsp/src/features/signature.ts`) and of the
completion renderer (`src/unnamed/part_000`, `LSPCompletionRenderer`).

JavaScript strings are modelled as `List Char` (`JStr`).  JavaScript numbers
appearing in this code are integers, except for `Math.max()` over an empty
argument list which yields `-Infinity`; the type `JsNum` models exactly the
values that can occur (`-Infinity` or an integer).  Fallible JavaScript code
(property access on `undefined`, which throws a `TypeError`) is modelled with
`Except Unit`.  Calls to the logger are modelled by returning a list of log
entries; purely observational `console.log`/`console.debug` calls that carry
no claim-relevant information are not modelled.
-/

/-- JavaScript strings, modelled as lists of characters. -/
abbrev JStr := List Char

/-- Embed a Lean string literal as a `JStr`. -/
def js (s : String) : JStr := s.toList

/-- The ASCII whitespace characters recognised by `String.prototype.trim`
(the full JS set also has exotic Unicode spaces; source strings here are
ASCII). -/
def isJsWhitespace (c : Char) : Bool :=
  c = ' ' || c = '\t' || c = '\n' || c = '\r' || c = '\x0b' || c = '\x0c'

/-- `String.prototype.trim`: drop whitespace from both ends. -/
def jsTrim (s : JStr) : JStr :=
  ((s.dropWhile isJsWhitespace).reverse.dropWhile isJsWhitespace).reverse

/-- `String.prototype.split(sep)` for a single-character separator.
`"".split(sep)` is `[""]`, so the result is never the empty list. -/
def jsSplit (sep : Char) : JStr → List JStr
  | [] => [[]]
  | c :: rest =>
    match jsSplit sep rest with
    | [] => [[]]
    | h :: t => if c = sep then [] :: h :: t else (c :: h) :: t

/-- `Array.prototype.join(sep)`. -/
def jsJoin (sep : JStr) : List JStr → JStr
  | [] => []
  | [x] => x
  | x :: y :: t => x ++ sep ++ jsJoin sep (y :: t)

/-- Concatenation of a list of lists (used for `+=` accumulation loops). -/
def joinAll {α : Type} : List (List α) → List α
  | [] => []
  | x :: xs => x ++ joinAll xs

/-- `String.prototype.slice(a, b)` for `0 ≤ a, b` (LSP offsets are unsigned):
clamps to the length and yields `""` when `a ≥ b`. -/
def jsSlice (s : JStr) (a b : Nat) : JStr := (s.take b).drop a

/-- Boolean "is prefix of" on `JStr` (the building block of substring search). -/
def isPre : JStr → JStr → Bool
  | [], _ => true
  | _ :: _, [] => false
  | a :: as, b :: bs => if a = b then isPre as bs else false

/-- Number of (possibly overlapping) occurrences of `pat` in a string. -/
def countOccurrences (pat : JStr) : JStr → Nat
  | [] => 0
  | c :: rest => (if isPre pat (c :: rest) then 1 else 0) + countOccurrences pat rest

/-- JavaScript numbers as they occur in this feature: an integer, or the
`-Infinity` produced by `Math.max()` of an empty list. -/
inductive JsNum
  | negInf
  | int (n : Int)
deriving DecidableEq, Repr

/-- `<` on `JsNum`. -/
def jsLt : JsNum → JsNum → Bool
  | .negInf, .negInf => false
  | .negInf, .int _ => true
  | .int _, .negInf => false
  | .int a, .int b => decide (a < b)

/-- `≤` on `JsNum`. -/
def jsLe : JsNum → JsNum → Bool
  | .negInf, _ => true
  | .int _, .negInf => false
  | .int a, .int b => decide (a ≤ b)

/-- Binary `Math.max`. -/
def jsMax : JsNum → JsNum → JsNum
  | .negInf, b => b
  | .int a, .negInf => .int a
  | .int a, .int b => .int (max a b)

/-- `Math.max(...xs)`: `-Infinity` on the empty list. -/
def jsMaxList (xs : List JsNum) : JsNum := xs.foldl jsMax .negInf

/-- Subtraction of a natural number from a `JsNum`. -/
def jsSub : JsNum → Nat → JsNum
  | .negInf, _ => .negInf
  | .int n, m => .int (n - (m : Int))

/-- Addition. -/
def jsAdd : JsNum → JsNum → JsNum
  | .negInf, _ => .negInf
  | .int _, .negInf => .negInf
  | .int a, .int b => .int (a + b)

/-- `String.prototype.substring(0, e)`: clamps a negative (or `-Infinity`)
end to `0` and an end beyond the length to the length. -/
def jsSubstringTo (s : JStr) (e : JsNum) : JStr :=
  match e with
  | .negInf => []
  | .int n => s.take n.toNat

/-- Greatest `i ≤ n` such that `pat` matches in `s` at offset `i`
(downward search, the semantics of `String.prototype.lastIndexOf`). -/
def lastMatchFrom (s pat : JStr) : Nat → Option Nat
  | 0 => if isPre pat s then some 0 else none
  | n + 1 => if isPre pat (s.drop (n + 1)) then some (n + 1) else lastMatchFrom s pat n

/-- `String.prototype.lastIndexOf(pat)`: `-1` when `pat` does not occur. -/
def jsLastIndexOf (s pat : JStr) : Int :=
  match lastMatchFrom s pat s.length with
  | some k => (k : Int)
  | none => -1

/-- Greatest `i ≤ n` at which ANY of `chars` matches in `s` (the
specification's "last occurrence … of any configured trigger character"). -/
def lastAnyMatchFrom (s : JStr) (chars : List JStr) : Nat → Option Nat
  | 0 => if chars.any (fun c => isPre c s) then some 0 else none
  | n + 1 =>
    if chars.any (fun c => isPre c (s.drop (n + 1))) then some (n + 1)
    else lastAnyMatchFrom s chars n

/-- `Array.prototype.includes` for string arrays. -/
def listIncludes (xs : List JStr) (x : JStr) : Bool := xs.any (fun y => decide (y = x))

/-- `String.prototype.toLowerCase` (ASCII). -/
def jsToLower (s : JStr) : JStr := s.map Char.toLower

/-! ## Data model (`vscode-languageserver-protocol` types, as used by the code) -/

/-- `lsProtocol.MarkupContent`: `kind` is kept as a raw string because the
code compares it against the literals `'plaintext'` and `'markdown'` and has
a branch for unknown kinds. -/
structure MarkupContent where
  kind : JStr
  value : JStr
deriving DecidableEq, Repr

/-- `string | lsProtocol.MarkupContent` (documentation fields). -/
inductive Documentation
  | str (s : JStr)
  | markup (m : MarkupContent)
deriving DecidableEq, Repr

/-- `lsProtocol.ParameterInformation`: the label is a literal substring or a
`[start, end)` offset range into the signature label. -/
structure ParameterInformation where
  label : JStr ⊕ (Nat × Nat)
  documentation : Option Documentation
deriving DecidableEq, Repr

/-- `lsProtocol.SignatureInformation`.  `none` models an absent (`undefined`)
field. -/
structure SignatureInformation where
  label : JStr
  documentation : Option Documentation
  parameters : Option (List ParameterInformation)
  activeParameter : Option Nat
deriving DecidableEq, Repr

/-- `lsProtocol.SignatureHelp`. -/
structure SignatureHelp where
  signatures : List SignatureInformation
  activeSignature : Option Nat
  activeParameter : Option Nat
deriving DecidableEq, Repr

/-- Entries produced on the logger (`this.console` / the injected
`ILogConsoleCore`) by the formatting code. -/
inductive LogEntry
  | errorWrongActiveSignatureItem (item : SignatureInformation)
  | errorWrongActiveSignatureResponse (help : SignatureHelp)
  | warnUnknownMarkupKind (kind : JStr)
deriving DecidableEq, Repr

/-- JavaScript truthiness of an optional documentation value: `undefined`
and the empty string are falsy, everything else (including a `MarkupContent`
object with empty `value`) is truthy. -/
def docTruthy : Option Documentation → Bool
  | none => false
  | some (.str s) => !s.isEmpty
  | some (.markup _) => true

/-! ## `escapeMarkdown` (from `../utils`, not part of `src/`) -/

/-- The Markdown-special characters of the split guard in `extractLead`
(regex `[\\*#[\]<>_]`). -/
def isMarkdownSpecial (c : Char) : Bool :=
  c = '\\' || c = '*' || c = '#' || c = '[' || c = ']' || c = '<' || c = '>' || c = '_'

/-- Modelled from the spec: `escapeMarkdown` is imported from `../utils`,
which is not under `src/`; the spec says "escape remaining
Markdown-sensitive characters per line".  The model prefixes each
Markdown-special character with a backslash. -/
def escapeMarkdown (s : JStr) : JStr :=
  s.flatMap fun c => if isMarkdownSpecial c then ['\\', c] else [c]

/-- `getMarkdown` from `signature.ts` (escape plain text, pass Markdown
through verbatim). -/
def getMarkdown : Documentation → JStr
  | .str s => escapeMarkdown s
  | .markup m => if m.kind = js "markdown" then m.value else escapeMarkdown m.value

/-- `getMarkdown(parameter.documentation!)`: the non-null assertion is only
evaluated after the truthiness filter, so `none` is unreachable there. -/
def getMarkdownOpt : Option Documentation → JStr
  | some d => getMarkdown d
  | none => []

/-! ## `extractLead` -/

/-- `ISplit` from `signature.ts`. -/
structure ISplit where
  lead : JStr
  remainder : JStr
deriving DecidableEq, Repr

/-- The `for … break` loop of `extractLead`: collect lines until the first
blank one; the flag records whether a blank line was encountered. -/
def collectLead : List JStr → List JStr × Bool
  | [] => ([], false)
  | line :: rest =>
    if jsTrim line = [] then ([], true)
    else
      let r := collectLead rest
      (line :: r.1, r.2)

/-- `extractLead(lines, size)` from `signature.ts`: split after the first
paragraph if a blank line occurs within the first `size + 1` lines and the
candidate lead contains no Markdown-special character. -/
def extractLead (lines : List JStr) (size : Nat) : Option ISplit :=
  let c := collectLead (lines.take (size + 1))
  let leadCandidate := jsJoin ['\n'] c.1
  if c.2 && !leadCandidate.any isMarkdownSpecial then
    some ⟨leadCandidate, jsJoin ['\n'] (lines.drop (c.1.length + 1))⟩
  else none

/-! ## `signatureToMarkdown` -/

/-- The language-tagged fenced code block `'```' + language + '\n' + label + '\n```'`. -/
def codeBlock (language label : JStr) : JStr :=
  js "```" ++ language ++ js "\n" ++ label ++ js "\n```"

/-- Step 1 of `signatureToMarkdown`: the code-block / highlighted-label part.
`activeParameter` resolves to the item's own index when defined, else to the
fallback.  When `parameters` is present (JS arrays are always truthy) and the
resolved index is non-null:
* index `> parameters.length` — log the protocol violation, fall back to the
  bare code block;
* index `< parameters.length` — highlight via the injected highlighter;
* index `= parameters.length` — `item.parameters[activeParameter]` is
  `undefined` and reading `.label` from it throws a `TypeError` (`.error`). -/
def sigMarkdownHead (item : SignatureInformation) (language : JStr)
    (codeHighlighter : JStr → JStr → JStr → JStr)
    (activeParameterFallback : Option Nat) : Except Unit (JStr × List LogEntry) :=
  let activeParameter : Option Nat :=
    match item.activeParameter with
    | some v => some v
    | none => activeParameterFallback
  match item.parameters, activeParameter with
  | some ps, some ap =>
    if ps.length < ap then
      .ok (codeBlock language item.label, [.errorWrongActiveSignatureItem item])
    else if h : ap < ps.length then
      let parameter := ps.get ⟨ap, h⟩
      let substring : JStr :=
        match parameter.label with
        | .inl s => s
        | .inr r => jsSlice item.label r.1 r.2
      .ok (codeHighlighter item.label substring language, [])
    else .error ()
  | _, _ => .ok (codeBlock language item.label, [])

/-- The plain-text documentation loop of `signatureToMarkdown`: drop lines
that (after trimming) equal the trimmed label, escape the rest, append `\n`
after each. -/
def plainTextLines (docu label : JStr) : JStr :=
  joinAll (((jsSplit '\n' docu).filter
      (fun line => if jsTrim line = jsTrim label then false else true)).map
    (fun line => escapeMarkdown line ++ ['\n']))

/-- The `else if (item.parameters)` branch: synthesize `'\n\n'` plus a bullet
list of the documented parameters. -/
def sigDetailsNoDoc (item : SignatureInformation) : JStr × List LogEntry :=
  match item.parameters with
  | some ps =>
    (js "\n\n" ++ jsJoin (js "\n")
      ((ps.filter (fun p => docTruthy p.documentation)).map
        (fun p => js "- " ++ getMarkdownOpt p.documentation)), [])
  | none => ([], [])

/-- Step 3 of `signatureToMarkdown`: the `details` string (pre-collapsing)
plus the warning for an unknown `MarkupContent` kind.  The gate
`if (item.documentation)` is JS truthiness, so an empty documentation string
falls through to the parameter branch. -/
def sigDetails (item : SignatureInformation) : JStr × List LogEntry :=
  match item.documentation with
  | some (.str s) =>
    if s = [] then sigDetailsNoDoc item
    else (plainTextLines s item.label, [])
  | some (.markup m) =>
    if m.kind = js "plaintext" then (plainTextLines m.value item.label, [])
    else if m.kind = js "markdown" then (m.value, [])
    else (m.value, [.warnUnknownMarkupKind m.kind])
  | none => sigDetailsNoDoc item

/-- The collapsing policy (step 4): if the trimmed details have more lines
than the threshold, split off a lead paragraph when possible, otherwise wrap
everything in a collapsible block. -/
def collapseDetails (details : JStr) (maxLinesBeforeCollapse : Nat) : JStr :=
  let lines := jsSplit '\n' (jsTrim details)
  if maxLinesBeforeCollapse < lines.length then
    match extractLead lines maxLinesBeforeCollapse with
    | some split => split.lead ++ js "\n<details>\n" ++ split.remainder ++ js "\n</details>"
    | none => js "<details>\n" ++ details ++ js "\n</details>"
  else details

/-- `signatureToMarkdown` from `signature.ts`.  The logger argument of the
source is modelled by the returned list of log entries. -/
def signatureToMarkdown (item : SignatureInformation) (language : JStr)
    (codeHighlighter : JStr → JStr → JStr → JStr)
    (activeParameterFallback : Option Nat)
    (maxLinesBeforeCollapse : Nat) : Except Unit (JStr × List LogEntry) :=
  match sigMarkdownHead item language codeHighlighter activeParameterFallback with
  | .error e => .error e
  | .ok (markdown, logs1) =>
    let d := sigDetails item
    if d.1 = [] then .ok (markdown ++ ['\n'], logs1 ++ d.2)
    else .ok (markdown ++ js "\n\n" ++ collapseDetails d.1 maxLinesBeforeCollapse, logs1 ++ d.2)

/-! ## `get_markup_for_signature_help` -/

/-- The `response.signatures.forEach` loop: format every signature with NO
active-parameter fallback, collecting the Markdown blocks and the logs; a
thrown `TypeError` aborts the loop and propagates. -/
def formatAll (sigs : List SignatureInformation) (language : JStr)
    (codeHighlighter : JStr → JStr → JStr → JStr)
    (maxLines : Nat) : Except Unit (List JStr × List LogEntry) :=
  match sigs with
  | [] => .ok ([], [])
  | item :: rest =>
    match signatureToMarkdown item language codeHighlighter none maxLines with
    | .error e => .error e
    | .ok (m, lg) =>
      match formatAll rest language codeHighlighter maxLines with
      | .error e => .error e
      | .ok (ms, lgs) => .ok (m :: ms, lg ++ lgs)

/-- `get_markup_for_signature_help` from `signature.ts`: use the active
signature when its index is in bounds (passing the response-level
`activeParameter` as fallback); otherwise (absent or out-of-bounds index,
the latter with an error log) format all signatures and join them with a
blank line.  The result is the `value` of the returned
`{kind: 'markdown', value}` object. -/
def get_markup_for_signature_help (response : SignatureHelp) (language : JStr)
    (codeHighlighter : JStr → JStr → JStr → JStr)
    (maxLines : Nat) : Except Unit (JStr × List LogEntry) :=
  match response.activeSignature with
  | some a =>
    if h : a < response.signatures.length then
      signatureToMarkdown (response.signatures.get ⟨a, h⟩) language codeHighlighter
        response.activeParameter maxLines
    else
      match formatAll response.signatures language codeHighlighter maxLines with
      | .error e => .error e
      | .ok (ms, lgs) =>
        .ok (jsJoin (js "\n\n") ms, .errorWrongActiveSignatureResponse response :: lgs)
  | none =>
    match formatAll response.signatures language codeHighlighter maxLines with
    | .error e => .error e
    | .ok (ms, lgs) => .ok (jsJoin (js "\n\n") ms, lgs)

/-! ## The response handler (`handleSignature`) and its collaborators -/

/-- A `{line, ch}` editor/root position.  The `ch` field is a `JsNum`
because the anchor computation can produce a `-Infinity` character offset
(see `computeAnchor`). -/
structure Pos where
  line : Nat
  ch : JsNum
deriving DecidableEq, Repr

/-- The value the `textDocument/signatureHelp` promise settles with:
`null` (close), `undefined` (no update) or a `SignatureHelp` object. -/
inductive ResponseValue
  | jsNull
  | jsUndefined
  | obj (help : SignatureHelp)

/-- Calls issued against the tooltip collaborator (`EditorTooltipManager`),
in order: `remove()`, `hide()` and `showOrCreate({markup, position, …})`
(recorded with the markup value and the anchor position). -/
inductive TooltipAction
  | remove
  | hide
  | showOrCreate (markup : JStr) (position : Pos)
deriving DecidableEq, Repr

/-- The state and collaborators `handleSignature` reads, captured at
response-arrival time.  `rootToEditor`, `languageAt`, `offsetAtPosition` and
`positionAtOffset` model the external position-conversion helpers
(`virtual_editor.root_position_to_editor`, `get_language_at`, and the
`@jupyterlab/lsp` offset conversions); `PositionConverter.cm_to_ce` /
`ce_to_cm` only rename fields and are modelled as the identity. -/
structure Env where
  signatureCharacter : Option Pos
  currentRootPosition : Pos
  hasFocus : Bool
  rootToEditor : Pos → Pos
  languageAt : Pos → JStr
  codeHighlighter : JStr → JStr → JStr → JStr
  editorText : JStr
  signatureCharacters : List JStr
  maxLines : Nat
  offsetAtPosition : Pos → List JStr → JsNum
  positionAtOffset : JsNum → List JStr → Pos

/-- The `display_position === null` branch of `handleSignature`: compute the
anchor from the last trigger-character occurrence before the cursor.  Note
`Math.max()` of an empty array is `-Infinity`, which is `!== -1`, so an
empty trigger-character set takes the "found" branch with offset
`-Infinity`. -/
def computeAnchor (env : Env) (editor_position : Pos) (display_position : Option Pos) : Pos :=
  match display_position with
  | some p => p
  | none =>
    let content := env.editorText
    let lines := jsSplit '\n' content
    let offset := env.offsetAtPosition editor_position lines
    let subset := jsSubstringTo content offset
    let lastTriggerCharacterOffset :=
      jsMaxList (env.signatureCharacters.map (fun c => JsNum.int (jsLastIndexOf subset c)))
    if lastTriggerCharacterOffset = JsNum.int (-1) then editor_position
    else env.positionAtOffset lastTriggerCharacterOffset lines

/-- `handleSignature(response, position_at_request, display_position)` from
`signature.ts`.  Returns the ordered list of tooltip calls performed and a
flag telling whether a `TypeError` escaped (thrown inside
`get_markup_for_signature_help`; the promise chain's `.catch` upstream
receives it).  Console logging in this method is purely observational and is
not modelled. -/
def handleSignature (env : Env) (response : ResponseValue)
    (position_at_request : Pos) (display_position : Option Pos) :
    List TooltipAction × Bool :=
  match response with
  | .jsNull => ([.remove], false)
  | .jsUndefined => ([], false)
  | .obj r =>
    if env.signatureCharacter = none ∨ r.signatures = [] then
      ([.hide, .remove], false)
    else
      let root_position := env.currentRootPosition
      if position_at_request.line ≠ root_position.line ∨
          jsLt root_position.ch position_at_request.ch then
        ([.hide, .remove], false)
      else if !env.hasFocus then
        ([.hide, .remove], false)
      else
        let editor_position := env.rootToEditor root_position
        let language := env.languageAt editor_position
        match get_markup_for_signature_help r language env.codeHighlighter env.maxLines with
        | .error _ => ([.hide], true)
        | .ok (markup, _) =>
          ([.hide, .showOrCreate markup (computeAnchor env editor_position display_position)],
           false)

/-! ## `_afterChange` (request issuing, prior-anchor capture) -/

/-- Inputs read by `_afterChange`: the character just typed or deleted, the
tooltip visibility and current position, the configured close and trigger
characters, and whether `requestSignature` may fire (connection ready with
the signature-help capability). -/
structure AfterChangeInput where
  lastCharacter : JStr
  isSignatureShown : Bool
  tooltipPosition : Pos
  closeCharacters : List JStr
  signatureCharacters : List JStr
  connectionReady : Bool

/-- What `_afterChange` did: whether `_removeTooltip()` ran, and the request
issued (root position and `previousPosition` forwarded to
`handleSignature`), if any. -/
structure AfterChangeResult where
  removedTooltip : Bool
  request : Option (Pos × Option Pos)
deriving DecidableEq, Repr

/-- `_afterChange(change, root_position)` from `signature.ts`: capture the
prior tooltip anchor when a popup is shown, remove the tooltip on a close
character, and issue a request when a trigger character was typed or the
popup is (was) visible. -/
def afterChange (inp : AfterChangeInput) (root_position : Pos) : AfterChangeResult :=
  let previousPosition : Option Pos :=
    if inp.isSignatureShown then some inp.tooltipPosition else none
  let removed := inp.isSignatureShown && listIncludes inp.closeCharacters inp.lastCharacter
  if !(listIncludes inp.signatureCharacters inp.lastCharacter || inp.isSignatureShown) then
    { removedTooltip := removed, request := none }
  else if inp.connectionReady then
    { removedTooltip := removed, request := some (root_position, previousPosition) }
  else
    { removedTooltip := removed, request := none }

/-- Modelled from the spec: `positionAtOffset` is imported from
`@jupyterlab/lsp` (an external collaborator, not under `src/`); it walks the
lines, subtracting `length + 1` while the remaining offset exceeds the line
length.  On `-Infinity` the first comparison fails immediately, giving
line 0 with character `-Infinity`. -/
def stdPositionAtOffsetGo : JsNum → Nat → List JStr → Pos
  | _, line, [] => ⟨line, .int 0⟩
  | offset, line, l :: ls =>
    if jsLt (.int (l.length : Int)) offset then
      stdPositionAtOffsetGo (jsSub offset (l.length + 1)) (line + 1) ls
    else ⟨line, offset⟩

/-- Modelled from the spec: entry point of the external `positionAtOffset`. -/
def stdPositionAtOffset (offset : JsNum) (lines : List JStr) : Pos :=
  stdPositionAtOffsetGo offset 0 lines

/-- Modelled from the spec: `offsetAtPosition` from `@jupyterlab/lsp` sums
`length + 1` over the lines before the position's line and adds the
character offset. -/
def stdOffsetAtPosition (p : Pos) (lines : List JStr) : JsNum :=
  jsAdd (.int (((lines.take p.line).map (fun l => (l.length : Int) + 1)).foldl (· + ·) 0)) p.ch

/-! ## `getExtraInfo` (completion renderer, `src/unnamed/part_000`) -/

/-- The surface of `CompletionItem` accessed by `getExtraInfo`:
`item?.detail`, `item?.type`, `item?.source?.name`.  The whole item and each
field may be absent (the code uses optional chaining). -/
structure CompletionItemM where
  detail : Option JStr
  type : Option JStr
  sourceName : Option JStr
deriving DecidableEq, Repr

/-- Warnings produced on the renderer's console. -/
inductive RendererLog
  | warnLabelExtraMismatch (labelExtra : JStr)
deriving DecidableEq, Repr

/-- JS truthiness filter used by the `'auto'` branch: keep defined, non-empty
strings. -/
def strTruthy : Option JStr → Bool
  | none => false
  | some s => !s.isEmpty

/-- `x || ''`. -/
def orEmpty : Option JStr → JStr
  | none => []
  | some s => s

/-- `getExtraInfo(item)` from `LSPCompletionRenderer`, with the
`labelExtra` setting as first argument.  The returned value is `none` when
the JS function returns `undefined` (possible in the `'type'`/`'source'`
branches); the warning of the `default` branch is returned as a log entry. -/
def getExtraInfo (labelExtra : JStr) (item : Option CompletionItemM) :
    Option JStr × List RendererLog :=
  if labelExtra = js "detail" then
    (some (orEmpty (item.bind (·.detail))), [])
  else if labelExtra = js "type" then
    ((item.bind (·.type)).map jsToLower, [])
  else if labelExtra = js "source" then
    (item.bind (·.sourceName), [])
  else if labelExtra = js "auto" then
    (([some (orEmpty (item.bind (·.detail))),
       (item.bind (·.type)).map jsToLower,
       item.bind (·.sourceName)].filter strTruthy).headD none, [])
  else
    (some [], [.warnLabelExtraMismatch labelExtra])

/-! ## Helper lemmas: substring matching and occurrence counting -/

theorem isPre_iff (p s : JStr) : isPre p s = true ↔ ∃ t, s = p ++ t := by
  induction p generalizing s with
  | nil => simp [isPre]
  | cons a as ih =>
    cases s with
    | nil => simp [isPre]
    | cons b bs =>
      simp only [isPre]
      by_cases hab : a = b
      · subst hab
        simp [ih, List.cons_append]
      · simp [hab, Ne.symm hab]

theorem isPre_append_nl (p : JStr) (hn : '\n' ∉ p) (x y : JStr) :
    isPre p (x ++ '\n' :: y) = isPre p x := by
  induction p generalizing x with
  | nil => cases x <;> rfl
  | cons a as ih =>
    have ha : a ≠ '\n' := fun h => hn (h ▸ List.mem_cons_self a as)
    cases x with
    | nil => simp [isPre, ha]
    | cons c x' =>
      simp only [List.cons_append, isPre]
      by_cases hac : a = c
      · simp [hac, ih (fun h => hn (List.mem_cons_of_mem a h))]
      · simp [hac]

theorem countOccurrences_append_nl (p : JStr) (hp : p ≠ []) (hn : '\n' ∉ p) (a b : JStr) :
    countOccurrences p (a ++ '\n' :: b) = countOccurrences p a + countOccurrences p b := by
  induction a with
  | nil =>
    have hfalse : isPre p ('\n' :: b) = false := by
      cases p with
      | nil => exact absurd rfl hp
      | cons q qs =>
        have hq : q ≠ '\n' := fun h => hn (h ▸ List.mem_cons_self q qs)
        simp [isPre, hq]
    simp [countOccurrences, hfalse]
  | cons c a' ih =>
    rw [List.cons_append, countOccurrences, ← List.cons_append,
      isPre_append_nl p hn (c :: a') b, ih, countOccurrences]
    omega

theorem one_le_countOccurrences (p : JStr) (hp : p ≠ []) (u v : JStr) :
    1 ≤ countOccurrences p (u ++ (p ++ v)) := by
  induction u with
  | nil =>
    simp only [List.nil_append]
    cases p with
    | nil => exact absurd rfl hp
    | cons q qs =>
      have hpre : isPre (q :: qs) ((q :: qs) ++ v) = true :=
        (isPre_iff (q :: qs) ((q :: qs) ++ v)).mpr ⟨v, rfl⟩
      rw [List.cons_append, countOccurrences, ← List.cons_append, hpre]
      simp
  | cons c u' ih =>
    rw [List.cons_append, countOccurrences]
    omega

theorem exists_seg_of_one_le (p t : JStr) (h : 1 ≤ countOccurrences p t) :
    ∃ x y, t = x ++ (p ++ y) := by
  induction t with
  | nil => simp [countOccurrences] at h
  | cons c t' ih =>
    rw [countOccurrences] at h
    cases hpre : isPre p (c :: t') with
    | true =>
      obtain ⟨y, hy⟩ := (isPre_iff p (c :: t')).mp hpre
      exact ⟨[], y, by simpa using hy⟩
    | false =>
      rw [hpre] at h
      simp at h
      obtain ⟨x, y, hxy⟩ := ih h
      exact ⟨c :: x, y, by simp [hxy]⟩

theorem countOccurrences_zero_seg (p s t u v : JStr) (hp : p ≠ [])
    (hz : countOccurrences p s = 0) (hseg : s = u ++ (t ++ v)) :
    countOccurrences p t = 0 := by
  by_contra hne
  obtain ⟨x, y, hxy⟩ := exists_seg_of_one_le p t (Nat.one_le_iff_ne_zero.mpr hne)
  have hone : 1 ≤ countOccurrences p s := by
    rw [hseg, hxy]
    have h2 := one_le_countOccurrences p hp (u ++ x) (y ++ v)
    simpa [List.append_assoc] using h2
  omega

/-! ## Helper lemmas: split, join, trim -/

theorem jsSplit_ne_nil (sep : Char) (s : JStr) : jsSplit sep s ≠ [] := by
  cases s with
  | nil => simp [jsSplit]
  | cons c rest =>
    simp only [jsSplit]
    split
    · simp
    · split <;> simp

theorem jsJoin_jsSplit (sep : Char) (s : JStr) : jsJoin [sep] (jsSplit sep s) = s := by
  induction s with
  | nil => rfl
  | cons c rest ih =>
    simp only [jsSplit]
    cases h : jsSplit sep rest with
    | nil => exact absurd h (jsSplit_ne_nil sep rest)
    | cons hd tl =>
      rw [h] at ih
      by_cases hc : c = sep
      · subst hc
        simp only [if_pos rfl]
        cases tl with
        | nil => simp [jsJoin] at ih ⊢; rw [ih]
        | cons y t => simp [jsJoin] at ih ⊢; rw [ih]
      · simp only [if_neg hc]
        cases tl with
        | nil => simp [jsJoin] at ih ⊢; rw [ih]
        | cons y t =>
          simp [jsJoin] at ih ⊢
          exact ih

theorem jsJoin_take_seg (sep : JStr) :
    ∀ (ls : List JStr) (k : Nat), ∃ rest, jsJoin sep ls = jsJoin sep (ls.take k) ++ rest := by
  intro ls
  induction ls with
  | nil => intro k; exact ⟨[], by simp [jsJoin]⟩
  | cons x t ih =>
    intro k
    cases k with
    | zero => exact ⟨jsJoin sep (x :: t), by simp [jsJoin]⟩
    | succ k' =>
      cases t with
      | nil =>
        refine ⟨[], ?_⟩
        simp [jsJoin]
      | cons y t' =>
        obtain ⟨rest, hrest⟩ := ih k'
        cases hk : (y :: t').take k' with
        | nil =>
          have hk0 : k' = 0 := by
            cases k' with
            | zero => rfl
            | succ n => simp at hk
          subst hk0
          exact ⟨[sep].flatten ++ jsJoin sep (y :: t'), by simp [jsJoin]⟩
        | cons z zs =>
          refine ⟨rest, ?_⟩
          rw [List.take_succ_cons, hk]
          rw [hk] at hrest
          show x ++ sep ++ jsJoin sep (y :: t') = jsJoin sep (x :: z :: zs) ++ rest
          rw [hrest]
          show x ++ sep ++ (jsJoin sep (z :: zs) ++ rest) =
            (x ++ sep ++ jsJoin sep (z :: zs)) ++ rest
          simp [List.append_assoc]

theorem jsJoin_drop_seg (sep : JStr) :
    ∀ (ls : List JStr) (m : Nat), ∃ front, jsJoin sep ls = front ++ jsJoin sep (ls.drop m) := by
  intro ls
  induction ls with
  | nil => intro m; exact ⟨[], by simp [jsJoin]⟩
  | cons x t ih =>
    intro m
    cases m with
    | zero => exact ⟨[], by simp⟩
    | succ m' =>
      obtain ⟨front, hfront⟩ := ih m'
      cases t with
      | nil =>
        refine ⟨x, ?_⟩
        cases m' <;> simp [jsJoin]
      | cons y t' =>
        refine ⟨x ++ sep ++ front, ?_⟩
        show x ++ sep ++ jsJoin sep (y :: t') = (x ++ sep ++ front) ++ jsJoin sep ((y :: t').drop m')
        rw [hfront]
        simp [List.append_assoc]

theorem exists_dropWhile_seg (p : Char → Bool) (s : JStr) : ∃ u, s = u ++ s.dropWhile p := by
  induction s with
  | nil => exact ⟨[], rfl⟩
  | cons c t ih =>
    by_cases h : p c
    · obtain ⟨u, hu⟩ := ih
      refine ⟨c :: u, ?_⟩
      rw [List.dropWhile_cons, if_pos h, List.cons_append, ← hu]
    · refine ⟨[], ?_⟩
      rw [List.dropWhile_cons, if_neg h, List.nil_append]

theorem exists_jsTrim_seg (s : JStr) : ∃ u v, s = u ++ (jsTrim s ++ v) := by
  obtain ⟨u, hu⟩ := exists_dropWhile_seg isJsWhitespace s
  obtain ⟨a, ha⟩ :=
    exists_dropWhile_seg isJsWhitespace (s.dropWhile isJsWhitespace).reverse
  refine ⟨u, a.reverse, ?_⟩
  have hw : s.dropWhile isJsWhitespace = jsTrim s ++ a.reverse := by
    have h2 := congrArg List.reverse ha
    simpa [jsTrim, List.reverse_append] using h2
  conv_lhs => rw [hu, hw]

/-! ## Helper lemmas: first blank line and `extractLead` characterization -/

/-- A blank (whitespace-only) line: trimming leaves the empty string. -/
def blankLine (l : JStr) : Bool := decide (jsTrim l = [])

theorem collectLead_eq (l : List JStr) :
    collectLead l = (l.takeWhile (fun x => !blankLine x), l.any blankLine) := by
  induction l with
  | nil => rfl
  | cons x t ih =>
    by_cases h : jsTrim x = []
    · simp [collectLead, h, blankLine]
    · simp [collectLead, h, blankLine, ih]

theorem takeWhile_eq_take_length {α : Type} (p : α → Bool) (l : List α) :
    l.takeWhile p = l.take (l.takeWhile p).length := by
  induction l with
  | nil => rfl
  | cons x t ih =>
    by_cases h : p x
    · simp only [List.takeWhile_cons, if_pos h, List.length_cons, List.take_succ_cons]
      rw [← ih]
    · simp only [List.takeWhile_cons, if_neg h, List.length_nil, List.take_zero]

/-- Position `k` holds the first blank line of `l`. -/
def FirstBlankAt (l : List JStr) (k : Nat) : Prop :=
  (∃ x, l[k]? = some x ∧ blankLine x = true) ∧
  ∀ j x, j < k → l[j]? = some x → blankLine x = false

theorem firstBlank_of_any (l : List JStr) (h : l.any blankLine = true) :
    FirstBlankAt l (l.takeWhile (fun x => !blankLine x)).length := by
  induction l with
  | nil => simp at h
  | cons a t ih =>
    cases ha : blankLine a with
    | true =>
      have hlen : ((a :: t).takeWhile (fun x => !blankLine x)).length = 0 := by
        simp [List.takeWhile_cons, ha]
      rw [hlen]
      exact ⟨⟨a, by simp, ha⟩, fun j x hj _ => absurd hj (Nat.not_lt_zero j)⟩
    | false =>
      have ht : t.any blankLine = true := by
        rw [List.any_cons, ha] at h
        simpa using h
      obtain ⟨⟨y, hy, hby⟩, hprev⟩ := ih ht
      have hlen : ((a :: t).takeWhile (fun x => !blankLine x)).length
          = (t.takeWhile (fun x => !blankLine x)).length + 1 := by
        simp [List.takeWhile_cons, ha]
      rw [hlen]
      refine ⟨⟨y, by simpa using hy, hby⟩, ?_⟩
      intro j x hj hx
      cases j with
      | zero =>
        simp at hx
        rw [← hx]
        exact ha
      | succ j' =>
        exact hprev j' x (by omega) (by simpa using hx)

theorem takeWhile_length_of_firstBlank (l : List JStr) (k : Nat) (h : FirstBlankAt l k) :
    (l.takeWhile (fun x => !blankLine x)).length = k ∧ l.any blankLine = true := by
  induction l generalizing k with
  | nil =>
    obtain ⟨⟨x, hx, _⟩, _⟩ := h
    simp at hx
  | cons a t ih =>
    obtain ⟨⟨x, hx, hbx⟩, hprev⟩ := h
    cases k with
    | zero =>
      simp at hx
      have ha : blankLine a = true := by rw [hx]; exact hbx
      simp [List.takeWhile_cons, List.any_cons, ha]
    | succ k' =>
      have ha : blankLine a = false := hprev 0 a (Nat.succ_pos k') (by simp)
      have ht : FirstBlankAt t k' :=
        ⟨⟨x, by simpa using hx, hbx⟩,
         fun j y hj hy => hprev (j + 1) y (by omega) (by simpa using hy)⟩
      obtain ⟨h1, h2⟩ := ih k' ht
      simp [List.takeWhile_cons, List.any_cons, ha, h1, h2]

theorem firstBlankAt_take_iff (lines : List JStr) (size k : Nat) (hk : k ≤ size) :
    FirstBlankAt (lines.take (size + 1)) k ↔ FirstBlankAt lines k := by
  unfold FirstBlankAt
  constructor
  · rintro ⟨⟨x, hx, hbx⟩, hprev⟩
    rw [List.getElem?_take_of_lt (by omega)] at hx
    refine ⟨⟨x, hx, hbx⟩, fun j y hj hy => hprev j y hj ?_⟩
    rw [List.getElem?_take_of_lt (by omega)]
    exact hy
  · rintro ⟨⟨x, hx, hbx⟩, hprev⟩
    refine ⟨⟨x, ?_, hbx⟩, fun j y hj hy => hprev j y hj ?_⟩
    · rw [List.getElem?_take_of_lt (by omega)]
      exact hx
    · rw [List.getElem?_take_of_lt (by omega)] at hy
      exact hy

theorem extractLead_eq_some_iff (lines : List JStr) (size : Nat) (s : ISplit) :
    extractLead lines size = some s ↔
      ∃ k, k ≤ size ∧ FirstBlankAt lines k ∧
        (jsJoin ['\n'] (lines.take k)).any isMarkdownSpecial = false ∧
        s.lead = jsJoin ['\n'] (lines.take k) ∧
        s.remainder = jsJoin ['\n'] (lines.drop (k + 1)) := by
  simp only [extractLead, collectLead_eq]
  constructor
  · intro hsome
    by_cases hany : (lines.take (size + 1)).any blankLine = true
    · by_cases hspec :
        (jsJoin ['\n'] ((lines.take (size + 1)).takeWhile (fun x => !blankLine x))).any
          isMarkdownSpecial = false
      · have hfb := firstBlank_of_any (lines.take (size + 1)) hany
        have hklen :
            ((lines.take (size + 1)).takeWhile (fun x => !blankLine x)).length
              < (lines.take (size + 1)).length := by
          obtain ⟨⟨x, hx, _⟩, _⟩ := hfb
          exact (List.getElem?_eq_some.mp hx).1
        have hltake := List.length_take (size + 1) lines
        have hksize :
            ((lines.take (size + 1)).takeWhile (fun x => !blankLine x)).length ≤ size := by
          omega
        have htake :
            (lines.take (size + 1)).takeWhile (fun x => !blankLine x) =
              lines.take
                ((lines.take (size + 1)).takeWhile (fun x => !blankLine x)).length := by
          conv_lhs => rw [takeWhile_eq_take_length]
          rw [List.take_take, Nat.min_eq_left (by omega)]
        rw [hany, hspec] at hsome
        simp only [Bool.not_false, Bool.and_true, if_pos] at hsome
        rw [Option.some_inj] at hsome
        subst hsome
        refine ⟨((lines.take (size + 1)).takeWhile (fun x => !blankLine x)).length,
          hksize, (firstBlankAt_take_iff lines size _ hksize).mp hfb, ?_, ?_, ?_⟩
        · rw [← htake]
          exact hspec
        · exact congrArg (jsJoin ['\n']) htake
        · rfl
      · exfalso
        have hspec' :
            (jsJoin ['\n'] ((lines.take (size + 1)).takeWhile (fun x => !blankLine x))).any
              isMarkdownSpecial = true := by
          cases hb :
            (jsJoin ['\n'] ((lines.take (size + 1)).takeWhile (fun x => !blankLine x))).any
              isMarkdownSpecial
          · exact absurd hb hspec
          · rfl
        rw [hany, hspec'] at hsome
        simp at hsome
    · exfalso
      have hany' : (lines.take (size + 1)).any blankLine = false := by
        cases hb : (lines.take (size + 1)).any blankLine
        · rfl
        · exact absurd hb hany
      rw [hany'] at hsome
      simp at hsome
  · rintro ⟨k, hksize, hfb, hspec, hlead, hrem⟩
    have hkl : k < lines.length := by
      obtain ⟨⟨x, hx, _⟩, _⟩ := hfb
      exact (List.getElem?_eq_some.mp hx).1
    have hfb' := (firstBlankAt_take_iff lines size k hksize).mpr hfb
    obtain ⟨hlen, hany⟩ :=
      takeWhile_length_of_firstBlank (lines.take (size + 1)) k hfb'
    have htake :
        (lines.take (size + 1)).takeWhile (fun x => !blankLine x) = lines.take k := by
      conv_lhs => rw [takeWhile_eq_take_length]
      rw [hlen, List.take_take, Nat.min_eq_left (by omega)]
    have hlenTake : (lines.take k).length = k := by
      rw [List.length_take]
      omega
    have hcond : ((lines.take (size + 1)).any blankLine &&
        !(jsJoin ['\n']
            ((lines.take (size + 1)).takeWhile (fun x => !blankLine x))).any
          isMarkdownSpecial) = true := by
      rw [hany, htake, hspec]
      rfl
    rw [if_pos hcond, htake, hlenTake]
    obtain ⟨sl, sr⟩ := s
    dsimp only at hlead hrem
    subst hlead
    subst hrem
    rfl

/-! ## Helper lemmas: occurrence counting around the collapse step -/

theorem dTag_ne_nil : js "<details>" ≠ [] := by decide

theorem nl_not_mem_dTag : '\n' ∉ js "<details>" := by decide

theorem count_dTag_append_nl (a b : JStr) :
    countOccurrences (js "<details>") (a ++ '\n' :: b)
      = countOccurrences (js "<details>") a + countOccurrences (js "<details>") b :=
  countOccurrences_append_nl (js "<details>") dTag_ne_nil nl_not_mem_dTag a b

theorem count_dTag_cons_nl (b : JStr) :
    countOccurrences (js "<details>") ('\n' :: b)
      = countOccurrences (js "<details>") b := by
  have h := count_dTag_append_nl [] b
  simpa [countOccurrences] using h

theorem count_dTag_self : countOccurrences (js "<details>") (js "<details>") = 1 := by decide

theorem count_dTag_close : countOccurrences (js "<details>") (js "</details>") = 0 := by decide

theorem countOccurrences_trim_zero (pat details : JStr) (hp : pat ≠ [])
    (hz : countOccurrences pat details = 0) :
    countOccurrences pat (jsTrim details) = 0 := by
  obtain ⟨u, v, huv⟩ := exists_jsTrim_seg details
  exact countOccurrences_zero_seg pat details (jsTrim details) u v hp hz huv

theorem countOccurrences_lead_zero (pat details : JStr) (hp : pat ≠ [])
    (hz : countOccurrences pat details = 0) (k : Nat) :
    countOccurrences pat (jsJoin ['\n'] ((jsSplit '\n' (jsTrim details)).take k)) = 0 := by
  have htrim := countOccurrences_trim_zero pat details hp hz
  obtain ⟨rest, hrest⟩ := jsJoin_take_seg ['\n'] (jsSplit '\n' (jsTrim details)) k
  rw [jsJoin_jsSplit] at hrest
  refine countOccurrences_zero_seg pat (jsTrim details) _ [] rest hp htrim ?_
  conv_lhs => rw [hrest]
  simp

theorem countOccurrences_remainder_zero (pat details : JStr) (hp : pat ≠ [])
    (hz : countOccurrences pat details = 0) (m : Nat) :
    countOccurrences pat (jsJoin ['\n'] ((jsSplit '\n' (jsTrim details)).drop m)) = 0 := by
  have htrim := countOccurrences_trim_zero pat details hp hz
  obtain ⟨front, hfront⟩ := jsJoin_drop_seg ['\n'] (jsSplit '\n' (jsTrim details)) m
  rw [jsJoin_jsSplit] at hfront
  refine countOccurrences_zero_seg pat (jsTrim details) _ front [] hp htrim ?_
  conv_lhs => rw [hfront]
  simp

theorem count_dTag_collapseDetails (details : JStr) (maxLines : Nat)
    (hdz : countOccurrences (js "<details>") details = 0) :
    countOccurrences (js "<details>") (collapseDetails details maxLines)
      = (if (jsSplit '\n' (jsTrim details)).length ≤ maxLines then 0 else 1) := by
  unfold collapseDetails
  by_cases hgt : maxLines < (jsSplit '\n' (jsTrim details)).length
  · rw [if_pos hgt, if_neg (by omega)]
    cases hsplit : extractLead (jsSplit '\n' (jsTrim details)) maxLines with
    | none =>
      have hshape :
          js "<details>\n" ++ details ++ js "\n</details>"
            = js "<details>" ++ '\n' :: (details ++ '\n' :: js "</details>") := by
        simp [js, List.append_assoc]
      rw [hshape, count_dTag_append_nl, count_dTag_append_nl,
        count_dTag_self, count_dTag_close, hdz]
    | some sp =>
      obtain ⟨k, -, -, -, hlead, hrem⟩ :=
        (extractLead_eq_some_iff (jsSplit '\n' (jsTrim details)) maxLines sp).mp hsplit
      have hleadz : countOccurrences (js "<details>") sp.lead = 0 := by
        rw [hlead]
        exact countOccurrences_lead_zero (js "<details>") details dTag_ne_nil hdz k
      have hremz : countOccurrences (js "<details>") sp.remainder = 0 := by
        rw [hrem]
        exact countOccurrences_remainder_zero (js "<details>") details dTag_ne_nil hdz (k + 1)
      have hshape :
          sp.lead ++ js "\n<details>\n" ++ sp.remainder ++ js "\n</details>"
            = sp.lead ++ '\n' ::
                (js "<details>" ++ '\n' :: (sp.remainder ++ '\n' :: js "</details>")) := by
        simp [js, List.append_assoc]
      show countOccurrences (js "<details>")
          (sp.lead ++ js "\n<details>\n" ++ sp.remainder ++ js "\n</details>") = 1
      rw [hshape, count_dTag_append_nl, count_dTag_append_nl, count_dTag_append_nl,
        count_dTag_self, count_dTag_close, hleadz, hremz]
  · rw [if_neg hgt, if_pos (by omega)]
    exact hdz

/-! ## Helper lemmas: last-occurrence search and `Math.max` folding -/

theorem lastMatchFrom_some (s pat : JStr) (n k : Nat)
    (h : lastMatchFrom s pat n = some k) :
    k ≤ n ∧ isPre pat (s.drop k) = true ∧
      ∀ j, k < j → j ≤ n → isPre pat (s.drop j) = false := by
  induction n with
  | zero =>
    rw [lastMatchFrom] at h
    cases hp : isPre pat s with
    | true =>
      rw [hp] at h
      simp at h
      subst h
      exact ⟨Nat.le_refl 0, by simpa using hp, fun j hj hj2 => by omega⟩
    | false =>
      rw [hp] at h
      simp at h
  | succ n ih =>
    rw [lastMatchFrom] at h
    cases hp : isPre pat (s.drop (n + 1)) with
    | true =>
      rw [hp] at h
      simp at h
      subst h
      exact ⟨Nat.le_refl _, hp, fun j hj hj2 => by omega⟩
    | false =>
      rw [hp] at h
      simp at h
      obtain ⟨h1, h2, h3⟩ := ih h
      refine ⟨by omega, h2, fun j hj hj2 => ?_⟩
      rcases Nat.lt_or_ge n j with hnj | hnj
      · have hj1 : j = n + 1 := by omega
        subst hj1
        exact hp
      · exact h3 j hj (by omega)

theorem lastMatchFrom_none (s pat : JStr) (n : Nat)
    (h : lastMatchFrom s pat n = none) :
    ∀ j, j ≤ n → isPre pat (s.drop j) = false := by
  induction n with
  | zero =>
    rw [lastMatchFrom] at h
    cases hp : isPre pat s with
    | true =>
      rw [hp] at h
      simp at h
    | false =>
      intro j hj
      have hj0 : j = 0 := by omega
      subst hj0
      simpa using hp
  | succ n ih =>
    rw [lastMatchFrom] at h
    cases hp : isPre pat (s.drop (n + 1)) with
    | true =>
      rw [hp] at h
      simp at h
    | false =>
      rw [hp] at h
      simp at h
      intro j hj
      rcases Nat.lt_or_ge n j with hnj | hnj
      · have hj1 : j = n + 1 := by omega
        subst hj1
        exact hp
      · exact ih h j (by omega)

theorem lastAnyMatchFrom_some (s : JStr) (chars : List JStr) (n k : Nat)
    (h : lastAnyMatchFrom s chars n = some k) :
    k ≤ n ∧ chars.any (fun c => isPre c (s.drop k)) = true ∧
      ∀ j, k < j → j ≤ n → chars.any (fun c => isPre c (s.drop j)) = false := by
  induction n with
  | zero =>
    rw [lastAnyMatchFrom] at h
    cases hp : chars.any (fun c => isPre c s) with
    | true =>
      rw [hp] at h
      simp at h
      subst h
      exact ⟨Nat.le_refl 0, by simpa using hp, fun j hj hj2 => by omega⟩
    | false =>
      rw [hp] at h
      simp at h
  | succ n ih =>
    rw [lastAnyMatchFrom] at h
    cases hp : chars.any (fun c => isPre c (s.drop (n + 1))) with
    | true =>
      rw [hp] at h
      simp at h
      subst h
      exact ⟨Nat.le_refl _, hp, fun j hj hj2 => by omega⟩
    | false =>
      rw [hp] at h
      simp at h
      obtain ⟨h1, h2, h3⟩ := ih h
      refine ⟨by omega, h2, fun j hj hj2 => ?_⟩
      rcases Nat.lt_or_ge n j with hnj | hnj
      · have hj1 : j = n + 1 := by omega
        subst hj1
        exact hp
      · exact h3 j hj (by omega)

theorem lastAnyMatchFrom_none (s : JStr) (chars : List JStr) (n : Nat)
    (h : lastAnyMatchFrom s chars n = none) :
    ∀ j, j ≤ n → chars.any (fun c => isPre c (s.drop j)) = false := by
  induction n with
  | zero =>
    rw [lastAnyMatchFrom] at h
    cases hp : chars.any (fun c => isPre c s) with
    | true =>
      rw [hp] at h
      simp at h
    | false =>
      intro j hj
      have hj0 : j = 0 := by omega
      subst hj0
      simpa using hp
  | succ n ih =>
    rw [lastAnyMatchFrom] at h
    cases hp : chars.any (fun c => isPre c (s.drop (n + 1))) with
    | true =>
      rw [hp] at h
      simp at h
    | false =>
      rw [hp] at h
      simp at h
      intro j hj
      rcases Nat.lt_or_ge n j with hnj | hnj
      · have hj1 : j = n + 1 := by omega
        subst hj1
        exact hp
      · exact ih h j (by omega)

theorem jsLe_refl (a : JsNum) : jsLe a a = true := by
  cases a <;> simp [jsLe]

theorem jsLe_trans (a b c : JsNum) (h1 : jsLe a b = true) (h2 : jsLe b c = true) :
    jsLe a c = true := by
  cases a <;> cases b <;> cases c <;> simp_all [jsLe] <;> omega

theorem jsLe_antisymm (a b : JsNum) (h1 : jsLe a b = true) (h2 : jsLe b a = true) :
    a = b := by
  cases a <;> cases b <;> simp_all [jsLe] <;> omega

theorem jsLe_jsMax_left (a b : JsNum) : jsLe a (jsMax a b) = true := by
  cases a <;> cases b <;> simp [jsLe, jsMax, le_max_left]

theorem jsLe_jsMax_right (a b : JsNum) : jsLe b (jsMax a b) = true := by
  cases a <;> cases b <;> simp [jsLe, jsMax, le_max_right]

theorem jsMax_eq_or (a b : JsNum) : jsMax a b = a ∨ jsMax a b = b := by
  cases a with
  | negInf => exact Or.inr rfl
  | int m =>
    cases b with
    | negInf => exact Or.inl rfl
    | int n =>
      rcases max_choice m n with h | h
      · exact Or.inl (by simp [jsMax, h])
      · exact Or.inr (by simp [jsMax, h])

theorem foldl_jsMax_le (xs : List JsNum) (a m : JsNum)
    (ha : jsLe a m = true) (hxs : ∀ x ∈ xs, jsLe x m = true) :
    jsLe (xs.foldl jsMax a) m = true := by
  induction xs generalizing a with
  | nil => exact ha
  | cons x t ih =>
    apply ih
    · have hx := hxs x (List.mem_cons_self x t)
      rcases jsMax_eq_or a x with h | h <;> rw [h] <;> assumption
    · exact fun y hy => hxs y (List.mem_cons_of_mem x hy)

theorem init_le_foldl_jsMax (xs : List JsNum) (a : JsNum) :
    jsLe a (xs.foldl jsMax a) = true := by
  induction xs generalizing a with
  | nil => exact jsLe_refl a
  | cons x t ih => exact jsLe_trans _ _ _ (jsLe_jsMax_left a x) (ih (jsMax a x))

theorem le_foldl_jsMax (xs : List JsNum) : ∀ (a x : JsNum), x ∈ xs →
    jsLe x (xs.foldl jsMax a) = true := by
  induction xs with
  | nil => intro a x hx; cases hx
  | cons y t ih =>
    intro a x hx
    rcases List.mem_cons.mp hx with rfl | hmem
    · exact jsLe_trans _ _ _ (jsLe_jsMax_right a x) (init_le_foldl_jsMax t (jsMax a x))
    · exact ih (jsMax a y) x hmem

theorem jsMaxList_lastIndexOf_eq (s : JStr) (chars : List JStr) (hne : chars ≠ []) :
    jsMaxList (chars.map (fun c => JsNum.int (jsLastIndexOf s c))) =
      (match lastAnyMatchFrom s chars s.length with
       | some k => JsNum.int (k : Int)
       | none => JsNum.int (-1)) := by
  cases hm : lastAnyMatchFrom s chars s.length with
  | none =>
    have hall : ∀ c ∈ chars, jsLastIndexOf s c = -1 := by
      intro c hc
      unfold jsLastIndexOf
      cases hl : lastMatchFrom s c s.length with
      | none => rfl
      | some k =>
        exfalso
        obtain ⟨hk1, hk2, -⟩ := lastMatchFrom_some s c s.length k hl
        have hany := lastAnyMatchFrom_none s chars s.length hm k hk1
        have htrue : (chars.any fun x => isPre x (s.drop k)) = true :=
          List.any_eq_true.mpr ⟨c, hc, hk2⟩
        rw [hany] at htrue
        exact Bool.noConfusion htrue
    apply jsLe_antisymm
    · apply foldl_jsMax_le
      · rfl
      · intro x hxm
        rw [List.mem_map] at hxm
        obtain ⟨c, hc, rfl⟩ := hxm
        rw [hall c hc]
        exact jsLe_refl _
    · cases chars with
      | nil => exact absurd rfl hne
      | cons c0 t =>
        have hmem : JsNum.int (jsLastIndexOf s c0) ∈
            ((c0 :: t).map (fun c => JsNum.int (jsLastIndexOf s c))) := by
          simp
        have := le_foldl_jsMax _ JsNum.negInf _ hmem
        rw [hall c0 (List.mem_cons_self c0 t)] at this
        exact this
  | some K =>
    obtain ⟨hK1, hK2, hK3⟩ := lastAnyMatchFrom_some s chars s.length K hm
    rw [List.any_eq_true] at hK2
    obtain ⟨c0, hc0, hc0pre⟩ := hK2
    have hbound : ∀ c ∈ chars, jsLe (JsNum.int (jsLastIndexOf s c)) (JsNum.int (K : Int)) = true := by
      intro c hc
      unfold jsLastIndexOf
      cases hl : lastMatchFrom s c s.length with
      | none =>
        simp [jsLe]
        omega
      | some k =>
        obtain ⟨hk1, hk2, -⟩ := lastMatchFrom_some s c s.length k hl
        have hkK : k ≤ K := by
          by_contra hgt
          have hfalse := hK3 k (by omega) hk1
          have htrue : (chars.any fun x => isPre x (s.drop k)) = true :=
            List.any_eq_true.mpr ⟨c, hc, hk2⟩
          rw [hfalse] at htrue
          exact Bool.noConfusion htrue
        simp [jsLe]
        omega
    have hc0eq : jsLastIndexOf s c0 = (K : Int) := by
      unfold jsLastIndexOf
      cases hl : lastMatchFrom s c0 s.length with
      | none =>
        exfalso
        have hKfalse := lastMatchFrom_none s c0 s.length hl K hK1
        rw [hc0pre] at hKfalse
        exact Bool.noConfusion hKfalse
      | some k =>
        obtain ⟨hk1, hk2, hk3⟩ := lastMatchFrom_some s c0 s.length k hl
        have hkK : k ≤ K := by
          by_contra hgt
          have hfalse := hK3 k (by omega) hk1
          have htrue : (chars.any fun x => isPre x (s.drop k)) = true :=
            List.any_eq_true.mpr ⟨c0, hc0, hk2⟩
          rw [hfalse] at htrue
          exact Bool.noConfusion htrue
        have hKk : K ≤ k := by
          by_contra hgt
          have hfalse := hk3 K (by omega) hK1
          rw [hc0pre] at hfalse
          exact Bool.noConfusion hfalse
        have hkK2 : k = K := by omega
        simp [hkK2]
    apply jsLe_antisymm
    · apply foldl_jsMax_le
      · rfl
      · intro x hxm
        rw [List.mem_map] at hxm
        obtain ⟨c, hc, rfl⟩ := hxm
        exact hbound c hc
    · have hmem : JsNum.int (jsLastIndexOf s c0) ∈
          (chars.map (fun c => JsNum.int (jsLastIndexOf s c))) :=
        List.mem_map.mpr ⟨c0, hc0, rfl⟩
      have hle := le_foldl_jsMax _ JsNum.negInf _ hmem
      rw [hc0eq] at hle
      exact hle

/-! ## The anchor policy as worded by the specification -/

/-- The anchor position as the (amended) anchor policy words it: reuse the
prior anchor when one was recorded; otherwise the position of the LAST
occurrence, in the document text before the cursor, of ANY configured
trigger character (`lastAnyMatchFrom`); with a nonempty trigger set and no
occurrence, the cursor's editor position; with an EMPTY trigger set the code
converts the `-Infinity` produced by `Math.max()` into a position instead of
using the cursor position. -/
def claimedAnchor (env : Env) (editor_position : Pos) (display_position : Option Pos) : Pos :=
  match display_position with
  | some p => p
  | none =>
    let lines := jsSplit '\n' env.editorText
    let subset := jsSubstringTo env.editorText (env.offsetAtPosition editor_position lines)
    if env.signatureCharacters = [] then env.positionAtOffset .negInf lines
    else
      match lastAnyMatchFrom subset env.signatureCharacters subset.length with
      | some k => env.positionAtOffset (.int (k : Int)) lines
      | none => editor_position

theorem computeAnchor_eq_claimedAnchor (env : Env) (ep : Pos) (disp : Option Pos) :
    computeAnchor env ep disp = claimedAnchor env ep disp := by
  cases disp with
  | some p => rfl
  | none =>
    unfold computeAnchor claimedAnchor
    dsimp only
    by_cases hc : env.signatureCharacters = []
    · rw [hc, if_pos rfl]
      simp [jsMaxList, jsSubstringTo]
    · rw [if_neg hc]
      rw [jsMaxList_lastIndexOf_eq _ _ hc]
      cases hm : lastAnyMatchFrom
          (jsSubstringTo env.editorText
            (env.offsetAtPosition ep (jsSplit '\n' env.editorText)))
          env.signatureCharacters
          (jsSubstringTo env.editorText
            (env.offsetAtPosition ep (jsSplit '\n' env.editorText))).length with
      | none => rw [if_pos rfl]
      | some k =>
        have hk : (JsNum.int (k : Int)) ≠ JsNum.int (-1) := by
          simp only [ne_eq, JsNum.int.injEq]
          omega
        rw [if_neg hk]

/-! ## Helper lemmas: the forEach formatting loop and the accepted path -/

theorem formatAll_of_forall2 (language : JStr) (hl : JStr → JStr → JStr → JStr)
    (maxLines : Nat) (sigs : List SignatureInformation)
    (parts : List (JStr × List LogEntry))
    (h : List.Forall₂ (fun item pr =>
        signatureToMarkdown item language hl none maxLines = .ok pr) sigs parts) :
    formatAll sigs language hl maxLines =
      .ok (parts.map Prod.fst, joinAll (parts.map Prod.snd)) := by
  induction h with
  | nil => rfl
  | @cons item pr sigs2 parts2 hpr htail ih =>
    obtain ⟨m, lg⟩ := pr
    simp only [formatAll, hpr, ih, List.map_cons, joinAll]

theorem filter_docTruthy_nil (ps : List ParameterInformation)
    (h : ∀ p ∈ ps, p.documentation = none) :
    ps.filter (fun p => docTruthy p.documentation) = [] := by
  induction ps with
  | nil => rfl
  | cons p t ih =>
    rw [List.filter_cons, h p (List.mem_cons_self p t)]
    simp only [docTruthy, Bool.false_eq_true, if_false]
    exact ih (fun q hq => h q (List.mem_cons_of_mem p hq))

theorem handleSignature_accepted (env : Env) (r : SignatureHelp) (pos : Pos)
    (disp : Option Pos) (m : JStr) (lgs : List LogEntry)
    (hchar : env.signatureCharacter ≠ none)
    (hne : r.signatures ≠ [])
    (hline : pos.line = env.currentRootPosition.line)
    (hch : jsLt env.currentRootPosition.ch pos.ch = false)
    (hfocus : env.hasFocus = true)
    (hfmt : get_markup_for_signature_help r
        (env.languageAt (env.rootToEditor env.currentRootPosition))
        env.codeHighlighter env.maxLines = .ok (m, lgs)) :
    handleSignature env (.obj r) pos disp =
      ([.hide, .showOrCreate m
          (computeAnchor env (env.rootToEditor env.currentRootPosition) disp)], false) := by
  unfold handleSignature
  dsimp only
  rw [if_neg (fun h => h.elim hchar hne)]
  rw [if_neg (fun h => h.elim (fun h1 => h1 hline) (fun h2 => Bool.noConfusion (hch ▸ h2)))]
  rw [hfocus]
  simp only [Bool.not_true, Bool.false_eq_true, if_false]
  rw [hfmt]

/-! ## Concrete fixtures for witnesses and counterexamples -/

/-- A fixture code highlighter that marks its arguments recognisably. -/
def testHighlighter : JStr → JStr → JStr → JStr :=
  fun label v language => js "HL[" ++ label ++ js "|" ++ v ++ js "|" ++ language ++ js "]"

/-- A fixture environment: cursor at `(0, 3)` in the document `"f(x"`, a
pending request recorded at `(0, 2)`, focus held, triggers `(` and `,`. -/
def testEnv : Env where
  signatureCharacter := some ⟨0, .int 2⟩
  currentRootPosition := ⟨0, .int 3⟩
  hasFocus := true
  rootToEditor := fun p => p
  languageAt := fun _ => js "python"
  codeHighlighter := testHighlighter
  editorText := js "f(x"
  signatureCharacters := [js "(", js ","]
  maxLines := 4
  offsetAtPosition := stdOffsetAtPosition
  positionAtOffset := stdPositionAtOffset

/-- A plain signature with no documentation and no parameters. -/
def testSig : SignatureInformation := ⟨js "f(x)", none, none, none⟩

/-- A response carrying a single plain signature. -/
def testResp : SignatureHelp := ⟨[testSig], none, none⟩

/-- The fixture environment with the cursor moved to another line. -/
def envStale : Env := { testEnv with currentRootPosition := ⟨1, .int 0⟩ }

/-- The fixture environment with an empty trigger-character set. -/
def envC7 : Env := { testEnv with signatureCharacters := [] }

/-- A signature whose own `activeParameter` (2) equals `parameters.length`. -/
def sigC2a : SignatureInformation :=
  ⟨js "foo(a, b)", none, some [⟨.inl (js "a"), none⟩, ⟨.inl (js "b"), none⟩], some 2⟩

/-- The same signature with `activeParameter` 3, strictly beyond the length. -/
def sigC2b : SignatureInformation :=
  ⟨js "foo(a, b)", none, some [⟨.inl (js "a"), none⟩, ⟨.inl (js "b"), none⟩], some 3⟩

/-- A signature that makes the formatter throw: empty parameter array with
`activeParameter = 0` (so `parameters[0]` is `undefined`). -/
def badSig : SignatureInformation := ⟨js "f()", none, some [], some 0⟩

/-- A response whose only signature makes the formatter throw. -/
def badResp : SignatureHelp := ⟨[badSig], none, none⟩

/-! ## C1 -/

/-- C1: for every signature-help response carrying at least one signature,
if the cursor read at response-arrival time is on a different line than the
position recorded at request time, or on the same line with a strictly
smaller character offset, then `handleSignature` performs exactly the
tooltip calls `hide` then `remove` — it removes the tooltip and never calls
`showOrCreate`, regardless of the response content. -/
theorem C1_stale_response_hidden (env : Env) (r : SignatureHelp) (pos : Pos)
    (disp : Option Pos) (hne : r.signatures ≠ [])
    (hstale : env.currentRootPosition.line ≠ pos.line ∨
      (env.currentRootPosition.line = pos.line ∧
        jsLt env.currentRootPosition.ch pos.ch = true)) :
    handleSignature env (.obj r) pos disp = ([.hide, .remove], false) := by
  unfold handleSignature
  dsimp only
  by_cases hchar : env.signatureCharacter = none
  · rw [if_pos (Or.inl hchar)]
  · rw [if_neg (fun h => h.elim hchar hne)]
    rw [if_pos (hstale.elim (fun h => Or.inl (Ne.symm h)) (fun h => Or.inr h.2))]

/-- C1 witness: a concrete stale arrival (cursor moved to line 1 while the
request was recorded at line 0). -/
theorem C1_witness :
    testResp.signatures ≠ [] ∧
    handleSignature envStale (.obj testResp) ⟨0, .int 5⟩ none = ([.hide, .remove], false) :=
  ⟨by decide,
   C1_stale_response_hidden envStale testResp ⟨0, .int 5⟩ none (by decide)
     (Or.inl (by decide))⟩

/-! ## C2 -/

/-- C2 (code bug): the guard in `signatureToMarkdown` is
`activeParameter > parameters.length`, so the out-of-range index that EQUALS
`parameters.length` slips past it: `item.parameters[activeParameter]` is
`undefined` and reading `.label` throws a `TypeError` (first conjunct),
while an index strictly beyond the length is logged and falls back to the
bare code block as the claim demands (second conjunct). -/
theorem C2_boundary_throws :
    signatureToMarkdown sigC2a (js "python") testHighlighter none 4 = .error () ∧
    signatureToMarkdown sigC2b (js "python") testHighlighter none 4 =
      .ok (codeBlock (js "python") (js "foo(a, b)") ++ js "\n\n\n\n",
        [.errorWrongActiveSignatureItem sigC2b]) :=
  ⟨rfl, rfl⟩

/-! ## C6 -/

/-- C6: the three non-signature outcomes of `handleSignature`: a `null`
response performs exactly `remove` (hides if shown, no-op otherwise, never
shows); an `undefined` response performs no tooltip call at all; a response
with an empty signatures list performs exactly `hide` then `remove` (a no-op
when nothing is shown) — in all three cases `showOrCreate` is never
called. -/
theorem C6_sentinel_handling (env : Env) (pos : Pos) (disp : Option Pos) :
    handleSignature env .jsNull pos disp = ([.remove], false) ∧
    handleSignature env .jsUndefined pos disp = ([], false) ∧
    ∀ r : SignatureHelp, r.signatures = [] →
      handleSignature env (.obj r) pos disp = ([.hide, .remove], false) := by
  refine ⟨rfl, rfl, fun r hr => ?_⟩
  unfold handleSignature
  dsimp only
  rw [if_pos (Or.inr hr)]

/-- C6 witness: the three outcomes at a concrete environment. -/
theorem C6_witness :
    handleSignature testEnv .jsNull ⟨0, .int 2⟩ none = ([.remove], false) ∧
    handleSignature testEnv .jsUndefined ⟨0, .int 2⟩ none = ([], false) ∧
    handleSignature testEnv (.obj ⟨[], none, none⟩) ⟨0, .int 2⟩ none =
      ([.hide, .remove], false) :=
  ⟨(C6_sentinel_handling testEnv ⟨0, .int 2⟩ none).1,
   (C6_sentinel_handling testEnv ⟨0, .int 2⟩ none).2.1,
   (C6_sentinel_handling testEnv ⟨0, .int 2⟩ none).2.2 ⟨[], none, none⟩ rfl⟩

/-! ## C9 -/

/-- C9: for every `labelExtra` value other than `'detail'`, `'type'`,
`'source'` and `'auto'`, `getExtraInfo` returns the empty string (the
neutral default) without throwing and logs a warning naming the offending
value. -/
theorem C9_unrecognized_labelExtra (labelExtra : JStr) (item : Option CompletionItemM)
    (h1 : labelExtra ≠ js "detail") (h2 : labelExtra ≠ js "type")
    (h3 : labelExtra ≠ js "source") (h4 : labelExtra ≠ js "auto") :
    getExtraInfo labelExtra item = (some [], [.warnLabelExtraMismatch labelExtra]) := by
  unfold getExtraInfo
  rw [if_neg h1, if_neg h2, if_neg h3, if_neg h4]

/-- C9 witness: the unrecognized value `'bogus'`. -/
theorem C9_witness :
    getExtraInfo (js "bogus") (some ⟨some (js "int"), some (js "Function"), none⟩) =
      (some [], [.warnLabelExtraMismatch (js "bogus")]) :=
  C9_unrecognized_labelExtra (js "bogus") (some ⟨some (js "int"), some (js "Function"), none⟩)
    (by decide) (by decide) (by decide) (by decide)

/-! ## C10 -/

/-- C10: for a signature with a non-empty parameters list, no documentation,
no parameter documentation and no active parameter, the synthesized details
string `'\n\n'` is truthy, so the returned string is the code block followed
by FOUR newline characters (an empty details section), not the single
trailing newline of the no-details path.  `maxLinesBeforeCollapse ≥ 1` is
the configured regime (default 4; with 0 the empty details would be wrapped
in a collapsible block instead). -/
theorem C10_empty_details_synthesized (item : SignatureInformation) (language : JStr)
    (hl : JStr → JStr → JStr → JStr) (maxLines : Nat) (ps : List ParameterInformation)
    (hps : item.parameters = some ps) (hne : ps ≠ [])
    (hdoc : item.documentation = none)
    (hpdoc : ∀ p ∈ ps, p.documentation = none)
    (hap : item.activeParameter = none)
    (hmax : 1 ≤ maxLines) :
    signatureToMarkdown item language hl none maxLines =
      .ok (codeBlock language item.label ++ js "\n\n\n\n", []) := by
  have hhead : sigMarkdownHead item language hl none = .ok (codeBlock language item.label, []) := by
    unfold sigMarkdownHead
    rw [hap, hps]
  have hdetails : sigDetails item = (js "\n\n", []) := by
    unfold sigDetails sigDetailsNoDoc
    rw [hdoc, hps]
    dsimp only
    rw [filter_docTruthy_nil ps hpdoc]
    rfl
  have hcd : collapseDetails (js "\n\n") maxLines = js "\n\n" := by
    unfold collapseDetails
    rw [if_neg ?hlt]
    case hlt =>
      have hlen : (jsSplit '\n' (jsTrim (js "\n\n"))).length = 1 := rfl
      omega
  unfold signatureToMarkdown
  rw [hhead]
  dsimp only
  rw [hdetails]
  rw [if_neg (by decide), hcd]
  have happ : (js "\n\n" : JStr) ++ js "\n\n" = js "\n\n\n\n" := rfl
  rw [List.append_assoc, happ]
  rfl

/-- C10 witness: a one-parameter signature without documentation. -/
theorem C10_witness :
    signatureToMarkdown ⟨js "f(a)", none, some [⟨.inl (js "a"), none⟩], none⟩
        (js "python") testHighlighter none 4 =
      .ok (codeBlock (js "python") (js "f(a)") ++ js "\n\n\n\n", []) :=
  C10_empty_details_synthesized ⟨js "f(a)", none, some [⟨.inl (js "a"), none⟩], none⟩
    (js "python") testHighlighter 4 [⟨.inl (js "a"), none⟩] rfl (by decide) rfl
    (by decide) rfl (by decide)

/-! ## C4 -/

/-- C4: `extractLead` returns a split exactly when a blank (whitespace-only)
line occurs among the first `size + 1` lines and the lines BEFORE the first
such blank line, joined with newlines, contain none of the characters
`\ * # [ ] < > _` (`isMarkdownSpecial`); in that case `lead` is exactly
those lines joined and `remainder` is exactly the lines after the blank line
(the blank line itself skipped) joined; in every other case `extractLead`
returns `null`. -/
theorem C4_extractLead_characterization (lines : List JStr) (size : Nat) (s : ISplit) :
    extractLead lines size = some s ↔
      ∃ k, k ≤ size ∧ FirstBlankAt lines k ∧
        (jsJoin ['\n'] (lines.take k)).any isMarkdownSpecial = false ∧
        s.lead = jsJoin ['\n'] (lines.take k) ∧
        s.remainder = jsJoin ['\n'] (lines.drop (k + 1)) :=
  extractLead_eq_some_iff lines size s

/-- C4 witness: a concrete split (blank third line, clean lead). -/
theorem C4_witness :
    ∃ k, k ≤ 4 ∧ FirstBlankAt [js "alpha", js "beta", js " ", js "x*y"] k ∧
      (jsJoin ['\n'] ([js "alpha", js "beta", js " ", js "x*y"].take k)).any
        isMarkdownSpecial = false ∧
      (js "alpha\nbeta" : JStr) = jsJoin ['\n'] ([js "alpha", js "beta", js " ", js "x*y"].take k) ∧
      (js "x*y" : JStr) = jsJoin ['\n'] ([js "alpha", js "beta", js " ", js "x*y"].drop (k + 1)) :=
  (C4_extractLead_characterization [js "alpha", js "beta", js " ", js "x*y"] 4
    ⟨js "alpha\nbeta", js "x*y"⟩).mp (by decide)

/-! ## C3 -/

/-- A signature whose markdown documentation is the literal text
`<details>`. -/
def itemC3 : SignatureInformation :=
  ⟨js "f()", some (.markup ⟨js "markdown", js "<details>"⟩), none, none⟩

/-- C3 counterexample: for `itemC3` the computed details text has a single
line after trimming (1 ≤ 4 = threshold), yet the string returned by
`signatureToMarkdown` contains a collapsible `<details>` wrapper — the
verbatim markdown documentation carries one through, so the claim as stated
fails. -/
theorem C3_counterexample :
    (jsSplit '\n' (jsTrim (sigDetails itemC3).1)).length ≤ 4 ∧
    signatureToMarkdown itemC3 (js "") testHighlighter none 4 =
      .ok (js "```\nf()\n```\n\n<details>", []) ∧
    countOccurrences (js "<details>") (js "```\nf()\n```\n\n<details>") = 1 :=
  ⟨by decide, rfl, by decide⟩

/-- C3 (amended): provided the code-block part and the computed details text
contain no occurrence of the literal `<details>` themselves, the returned
string contains NO `<details>` wrapper when the trimmed details text has at
most `maxLinesBeforeCollapse` lines (or the details text is empty, which the
code treats as "no details section"), and EXACTLY ONE `<details>` wrapper
when it has strictly more lines. -/
theorem C3_collapse_wrapping (item : SignatureInformation) (language : JStr)
    (hl : JStr → JStr → JStr → JStr) (fb : Option Nat) (maxLines : Nat)
    (head : JStr) (lg1 : List LogEntry)
    (hhead : sigMarkdownHead item language hl fb = .ok (head, lg1))
    (hhz : countOccurrences (js "<details>") head = 0)
    (hdz : countOccurrences (js "<details>") (sigDetails item).1 = 0) :
    ∃ out lgs, signatureToMarkdown item language hl fb maxLines = .ok (out, lgs) ∧
      countOccurrences (js "<details>") out =
        (if (sigDetails item).1 = [] ∨
            (jsSplit '\n' (jsTrim (sigDetails item).1)).length ≤ maxLines
         then 0 else 1) := by
  unfold signatureToMarkdown
  rw [hhead]
  dsimp only
  by_cases hde : (sigDetails item).1 = []
  · rw [if_pos hde]
    refine ⟨head ++ ['\n'], lg1 ++ (sigDetails item).2, rfl, ?_⟩
    rw [if_pos (Or.inl hde)]
    have h := count_dTag_append_nl head []
    simpa [countOccurrences, hhz] using h
  · rw [if_neg hde]
    refine ⟨_, _, rfl, ?_⟩
    have hshape : head ++ js "\n\n" ++ collapseDetails (sigDetails item).1 maxLines
        = head ++ '\n' :: ('\n' :: collapseDetails (sigDetails item).1 maxLines) := by
      rw [List.append_assoc]
      rfl
    rw [hshape, count_dTag_append_nl, count_dTag_cons_nl, hhz,
      count_dTag_collapseDetails _ _ hdz]
    by_cases hle : (jsSplit '\n' (jsTrim (sigDetails item).1)).length ≤ maxLines
    · rw [if_pos hle, if_pos (Or.inr hle)]
    · rw [if_neg hle, if_neg (fun h => h.elim hde hle)]

/-- The fixture for the C3 witness: six plain documentation lines with a
blank third line. -/
def itemC3w : SignatureInformation :=
  ⟨js "f()", some (.markup ⟨js "markdown", js "l1\nl2\n\nl4\nl5\nl6"⟩), none, none⟩

/-- C3 witness: at six details lines (> 4) the output carries exactly one
collapsible wrapper. -/
theorem C3_witness :
    ∃ out lgs, signatureToMarkdown itemC3w (js "") testHighlighter none 4 = .ok (out, lgs) ∧
      countOccurrences (js "<details>") out =
        (if (sigDetails itemC3w).1 = [] ∨
            (jsSplit '\n' (jsTrim (sigDetails itemC3w).1)).length ≤ 4
         then 0 else 1) :=
  C3_collapse_wrapping itemC3w (js "") testHighlighter none 4
    (js "```\nf()\n```") [] rfl (by decide) (by decide)

/-! ## C5 -/

/-- C5 counterexample: a response whose only signature carries
`activeParameter = 0` with an EMPTY parameter array.  All the claim's
conditions hold (non-empty signatures, same line, cursor not receded, focus
held), yet formatting throws the C2 `TypeError`, the exception propagates
(`true` flag) and `showOrCreate` is never called — only `hide` ran. -/
theorem C5_counterexample :
    testEnv.hasFocus = true ∧
    (⟨0, .int 2⟩ : Pos).line = testEnv.currentRootPosition.line ∧
    jsLt testEnv.currentRootPosition.ch (⟨0, .int 2⟩ : Pos).ch = false ∧
    badResp.signatures ≠ [] ∧
    handleSignature testEnv (.obj badResp) ⟨0, .int 2⟩ none = ([.hide], true) :=
  ⟨rfl, rfl, rfl, by decide, rfl⟩

/-- C5 (amended): for every response with a non-empty signatures list, if at
response-arrival time the cursor is on the same line as the recorded request
position with a character offset that has not receded, the owning editor
still has focus, a request position is recorded, AND formatting the response
completes without throwing (`get_markup_for_signature_help` returns `.ok`),
then `handleSignature` calls `showOrCreate` with the formatted markup — the
response is shown. -/
theorem C5_accepted_response_shown (env : Env) (r : SignatureHelp) (pos : Pos)
    (disp : Option Pos) (m : JStr) (lgs : List LogEntry)
    (hchar : env.signatureCharacter ≠ none)
    (hne : r.signatures ≠ [])
    (hline : pos.line = env.currentRootPosition.line)
    (hch : jsLt env.currentRootPosition.ch pos.ch = false)
    (hfocus : env.hasFocus = true)
    (hfmt : get_markup_for_signature_help r
        (env.languageAt (env.rootToEditor env.currentRootPosition))
        env.codeHighlighter env.maxLines = .ok (m, lgs)) :
    ∃ p, handleSignature env (.obj r) pos disp = ([.hide, .showOrCreate m p], false) :=
  ⟨_, handleSignature_accepted env r pos disp m lgs hchar hne hline hch hfocus hfmt⟩

/-- C5 witness: a concrete accepted response is shown. -/
theorem C5_witness :
    ∃ p, handleSignature testEnv (.obj testResp) ⟨0, .int 2⟩ none =
      ([.hide, .showOrCreate (js "```python\nf(x)\n```\n") p], false) :=
  C5_accepted_response_shown testEnv testResp ⟨0, .int 2⟩ none
    (js "```python\nf(x)\n```\n") [] (by decide) (by decide) rfl rfl rfl rfl

/-! ## C7 -/

/-- An `_afterChange` fixture: popup shown at `(0, 1)`, `(` typed, ready
connection. -/
def testInp : AfterChangeInput :=
  ⟨js "(", true, ⟨0, .int 1⟩, [js ")"], [js "(", js ","], true⟩

/-- C7 counterexample: with an EMPTY configured trigger-character set (so no
trigger character occurs in the text before the cursor) an accepted
response is NOT anchored at the current cursor position: `Math.max()` of an
empty list is `-Infinity`, which is `!== -1`, so the code takes the "found"
branch and `positionAtOffset(-Infinity, …)` yields line 0 with character
`-Infinity`, while the cursor's editor position is `(0, 3)`. -/
theorem C7_counterexample :
    handleSignature envC7 (.obj testResp) ⟨0, .int 2⟩ none =
      ([.hide, .showOrCreate (js "```python\nf(x)\n```\n") ⟨0, .negInf⟩], false) ∧
    envC7.rootToEditor envC7.currentRootPosition = ⟨0, .int 3⟩ ∧
    (⟨0, .negInf⟩ : Pos) ≠ ⟨0, .int 3⟩ :=
  ⟨rfl, rfl, by decide⟩

/-- C7 (amended): an accepted response is shown at `claimedAnchor`: the
popup's previously displayed anchor when one was recorded at request time
(not recomputed — second conjunct: `_afterChange` records the tooltip's
current position as `previousPosition` whenever the popup is shown); else
the position of the last occurrence, scanning the document text before the
cursor, of any configured trigger character (`lastAnyMatchFrom`); with a
nonempty trigger set and no occurrence, the current cursor position; with an
EMPTY trigger set, the position computed from the `-Infinity` offset (not
the cursor position — the part the counterexample forces). -/
theorem C7_anchor_policy (env : Env) (r : SignatureHelp) (pos : Pos)
    (disp : Option Pos) (m : JStr) (lgs : List LogEntry)
    (inp : AfterChangeInput) (rp : Pos)
    (hchar : env.signatureCharacter ≠ none)
    (hne : r.signatures ≠ [])
    (hline : pos.line = env.currentRootPosition.line)
    (hch : jsLt env.currentRootPosition.ch pos.ch = false)
    (hfocus : env.hasFocus = true)
    (hfmt : get_markup_for_signature_help r
        (env.languageAt (env.rootToEditor env.currentRootPosition))
        env.codeHighlighter env.maxLines = .ok (m, lgs)) :
    handleSignature env (.obj r) pos disp =
      ([.hide, .showOrCreate m
          (claimedAnchor env (env.rootToEditor env.currentRootPosition) disp)], false) ∧
    (inp.isSignatureShown = true → inp.connectionReady = true →
      (afterChange inp rp).request = some (rp, some inp.tooltipPosition)) := by
  constructor
  · rw [← computeAnchor_eq_claimedAnchor]
    exact handleSignature_accepted env r pos disp m lgs hchar hne hline hch hfocus hfmt
  · intro hshown hready
    unfold afterChange
    rw [hshown, hready]
    simp

/-- C7 witness: the last `(` of `"f(x"` sits at offset 1, so the anchor is
`(0, 1)`; a request issued while the popup was shown carries the prior
anchor `(0, 1)`. -/
theorem C7_witness :
    (handleSignature testEnv (.obj testResp) ⟨0, .int 2⟩ none =
      ([.hide, .showOrCreate (js "```python\nf(x)\n```\n")
          (claimedAnchor testEnv (testEnv.rootToEditor testEnv.currentRootPosition) none)],
        false)) ∧
    (afterChange testInp ⟨0, .int 2⟩).request = some (⟨0, .int 2⟩, some ⟨0, .int 1⟩) ∧
    claimedAnchor testEnv (testEnv.rootToEditor testEnv.currentRootPosition) none = ⟨0, .int 1⟩ :=
  ⟨(C7_anchor_policy testEnv testResp ⟨0, .int 2⟩ none (js "```python\nf(x)\n```\n") []
      testInp ⟨0, .int 2⟩ (by decide) (by decide) rfl rfl rfl rfl).1,
   (C7_anchor_policy testEnv testResp ⟨0, .int 2⟩ none (js "```python\nf(x)\n```\n") []
      testInp ⟨0, .int 2⟩ (by decide) (by decide) rfl rfl rfl rfl).2 rfl rfl,
   by decide⟩

/-! ## C8 -/

/-- The original claim's reading of "no active-parameter highlighting": each
description rendered as the unmarked code block plus its details section,
never through the injected highlighter (statement-side definition, written
from the claim's words, to compare with the code). -/
def specFormatNoHighlight (item : SignatureInformation) (language : JStr)
    (maxLinesBeforeCollapse : Nat) : JStr :=
  let markdown := codeBlock language item.label
  let d := sigDetails item
  if d.1 = [] then markdown ++ ['\n']
  else markdown ++ js "\n\n" ++ collapseDetails d.1 maxLinesBeforeCollapse

/-- A signature that carries its OWN `activeParameter` (0). -/
def sigOwnAP : SignatureInformation :=
  ⟨js "f(a)", none, some [⟨.inl (js "a"), none⟩], some 0⟩

/-- A two-signature response with no response-level active signature. -/
def respC8 : SignatureHelp := ⟨[sigOwnAP, testSig], none, none⟩

/-- The same response with an out-of-bounds active-signature index (5 ≥ 2). -/
def respC8w : SignatureHelp := ⟨[sigOwnAP, testSig], some 5, none⟩

/-- C8 counterexample: `respC8` has two signatures and no active-signature
index, yet its first description IS highlighted (the signature's own
`activeParameter` applies even in the format-all path), so the produced
markup differs from formatting every description without highlighting. -/
theorem C8_counterexample :
    1 < respC8.signatures.length ∧
    respC8.activeSignature = none ∧
    get_markup_for_signature_help respC8 (js "") testHighlighter 4 =
      .ok (js "HL[f(a)|a|]\n\n\n\n\n\n```\nf(x)\n```\n", []) ∧
    js "HL[f(a)|a|]\n\n\n\n\n\n```\nf(x)\n```\n" ≠
      jsJoin (js "\n\n")
        [specFormatNoHighlight sigOwnAP (js "") 4, specFormatNoHighlight testSig (js "") 4] :=
  ⟨by decide, rfl, rfl, by decide⟩

/-- C8 (amended): for a response with more than one signature whose
active-signature index is absent or out of bounds (≥ the number of
signatures), `get_markup_for_signature_help` formats EVERY description with
NO response-level active-parameter fallback (`none` passed to
`signatureToMarkdown`; a description carrying its own index may still be
highlighted) and concatenates the results separated by a blank line, logging
a protocol-violation error first in the out-of-bounds case. -/
theorem C8_no_active_formats_all (resp : SignatureHelp) (language : JStr)
    (hl : JStr → JStr → JStr → JStr) (maxLines : Nat)
    (parts : List (JStr × List LogEntry))
    (hmulti : 1 < resp.signatures.length)
    (hact : resp.activeSignature = none ∨
      ∃ a, resp.activeSignature = some a ∧ resp.signatures.length ≤ a)
    (hparts : List.Forall₂ (fun item pr =>
        signatureToMarkdown item language hl none maxLines = .ok pr) resp.signatures parts) :
    get_markup_for_signature_help resp language hl maxLines =
      .ok (jsJoin (js "\n\n") (parts.map Prod.fst),
        (match resp.activeSignature with
         | some _ => [LogEntry.errorWrongActiveSignatureResponse resp]
         | none => ([] : List LogEntry)) ++ joinAll (parts.map Prod.snd)) := by
  have hfa := formatAll_of_forall2 language hl maxLines resp.signatures parts hparts
  unfold get_markup_for_signature_help
  rcases hact with hnone | ⟨a, ha, hge⟩
  · rw [hnone]
    dsimp only
    rw [hfa]
    rfl
  · rw [ha]
    dsimp only
    rw [dif_neg (by omega), hfa]
    rfl

/-- C8 witness: the out-of-bounds index 5 over two signatures formats both
and prepends the protocol-violation log entry. -/
theorem C8_witness :
    get_markup_for_signature_help respC8w (js "") testHighlighter 4 =
      .ok (jsJoin (js "\n\n")
          ([(js "HL[f(a)|a|]\n\n\n\n", ([] : List LogEntry)),
            (js "```\nf(x)\n```\n", [])].map Prod.fst),
        (match respC8w.activeSignature with
         | some _ => [LogEntry.errorWrongActiveSignatureResponse respC8w]
         | none => ([] : List LogEntry)) ++
          joinAll ([(js "HL[f(a)|a|]\n\n\n\n", ([] : List LogEntry)),
            (js "```\nf(x)\n```\n", [])].map Prod.snd)) :=
  C8_no_active_formats_all respC8w (js "") testHighlighter 4
    [(js "HL[f(a)|a|]\n\n\n\n", []), (js "```\nf(x)\n```\n", [])]
    (by decide) (Or.inr ⟨5, rfl, by decide⟩)
    (List.Forall₂.cons rfl (List.Forall₂.cons rfl List.Forall₂.nil))
